import Mathlib

/-!
Verification development for a Kademlia-style DHT (Go sources: dht/dht.go,
dht/netmsg_test.go, and an in-memory store file).

Shallow embedding conventions:
* Go byte slices are `List Nat` (each element one byte value).
* Go `time.Time` instants are `Nat` (seconds); `a.After(b)` is `b < a`.
* Go maps are association lists `List (List Nat × α)`; map assignment is
  `aset` (remove old binding, append new), map read is `alookup`.
* Fallible operations return `Option`.

Components whose Go source file is not available (the shortlist, the hash
table internals, the wire codec, base58) are modelled from the spec; every
such definition carries a doc comment starting `Modelled from the spec:`.
-/

set_option maxHeartbeats 1000000
set_option maxRecDepth 100000
set_option linter.unusedVariables false

/-- Modelled from the spec: k-bucket capacity and lookup result width
(spec §4.7, k = 20; the Go constant `k` lives in a file not under src). -/
def k : Nat := 20

/-- Modelled from the spec: lookup concurrency (spec §4.7, α = 3; the Go
constant `alpha` lives in a file not under src). -/
def alpha : Nat := 3

/-- From source dht.go: seconds after which a key/value pair expires. -/
def tExpire : Nat := 86410

/-- From source dht.go: seconds after which a bucket/key must be refreshed. -/
def tRefresh : Nat := 3600

/-- From source dht.go: interval between replication events. -/
def tReplicated : Nat := 3600

/-- From source dht.go: seconds after which the publisher must republish. -/
def tRepublish : Nat := 86400

/-- From source dht.go: max seconds to wait for a liveness-ping response. -/
def tPingMax : Nat := 1

/-- From source dht.go: max seconds to wait for a response to any message. -/
def tMsgTimeout : Nat := 2

/-- From source (type `NetworkNode`): a network address (id, ip, port).
IP addresses are abstracted to a single `Nat`. -/
structure NetworkNode where
  id : List Nat
  ip : Nat
  port : Nat
deriving DecidableEq, Repr

/-- The six payload variants of the message envelope (spec §3).  The Go
source keeps an untyped `Data interface\x7b\x7d` field plus an integer type
tag; following spec §9 we represent the pair as a tagged union. -/
inductive MsgData where
  | queryFindNode (target : List Nat)
  | responseFindNode (closest : List NetworkNode)
  | queryFindValue (target : List Nat)
  | responseFindValue (value : Option (List Nat)) (closest : List NetworkNode)
  | queryStore (key : List Nat) (dat : List Nat)
  | queryPing
  | responsePing
deriving DecidableEq, Repr

/-- The message envelope (spec §3): envelope id, sender, receiver,
is-response flag, nullable error, typed payload. -/
structure message where
  id : Nat
  sender : NetworkNode
  receiver : NetworkNode
  isResponse : Bool
  error : Option (List Nat)
  data : MsgData
deriving DecidableEq, Repr

/-! ### Association-list maps (the embedding of Go maps) -/

/-- Map read: first binding for `key`. -/
def alookup (key : List Nat) : List (List Nat × α) → Option α
  | [] => none
  | kv :: rest => if kv.1 = key then some kv.2 else alookup key rest

/-- Map write: drop any old binding of `key`, append the new one. -/
def aset (key : List Nat) (v : α) (m : List (List Nat × α)) : List (List Nat × α) :=
  m.filter (fun kv => kv.1 ≠ key) ++ [(key, v)]

theorem alookup_append (key : List Nat) (m₁ m₂ : List (List Nat × α)) :
    alookup key (m₁ ++ m₂) =
      (alookup key m₁).orElse (fun _ => alookup key m₂) := by
  induction m₁ with
  | nil => simp [alookup]
  | cons kv rest ih =>
    by_cases h : kv.1 = key <;> simp [alookup, h, ih]

theorem alookup_filter_ne (key : List Nat) (m : List (List Nat × α)) :
    alookup key (m.filter (fun kv => kv.1 ≠ key)) = none := by
  induction m with
  | nil => rfl
  | cons kv rest ih =>
    by_cases h : kv.1 = key
    · simpa [List.filter_cons, h] using ih
    · simpa [List.filter_cons, h, alookup] using ih

theorem alookup_aset_self (key : List Nat) (v : α) (m : List (List Nat × α)) :
    alookup key (aset key v m) = some v := by
  unfold aset
  rw [alookup_append, alookup_filter_ne]
  simp [alookup]

theorem alookup_aset_ne (key key' : List Nat) (v : α) (m : List (List Nat × α))
    (h : key' ≠ key) : alookup key' (aset key v m) = alookup key' m := by
  unfold aset
  rw [alookup_append]
  have hfilter : alookup key' (m.filter (fun kv => kv.1 ≠ key)) = alookup key' m := by
    induction m with
    | nil => rfl
    | cons kv rest ih =>
      by_cases hk : kv.1 = key
      · simpa [List.filter_cons, hk, alookup, Ne.symm h] using ih
      · by_cases hk' : kv.1 = key'
        · simp [List.filter_cons, hk, hk', alookup, h]
        · simpa [List.filter_cons, hk, hk', alookup] using ih
  rw [hfilter]
  cases hm : alookup key' m with
  | none => simp [alookup, Ne.symm h]
  | some v' => simp

/-- A key-indexed filter keeps exactly the bindings of keys passing `p`,
and leaves the kept bindings' first lookup unchanged. -/
theorem alookup_filter_key (p : List Nat → Bool) (m : List (List Nat × α)) (key : List Nat) :
    alookup key (m.filter (fun kv => ! p kv.1)) =
      (if p key then none else alookup key m) := by
  induction m with
  | nil => simp [alookup]
  | cons kv rest ih =>
    by_cases hk : kv.1 = key
    · subst hk
      cases hp : p kv.1 <;> simp [alookup, hp, ih]
    · cases hp : p kv.1 <;> simp [alookup, hp, hk, ih]

/-! ### The in-memory local store (from the source file defining MemoryStore) -/

/-- From source (`MemoryStore`): value map plus refresh and expire timers. -/
structure MemoryStore where
  data : List (List Nat × List Nat)
  refreshMap : List (List Nat × Nat)
  expireMap : List (List Nat × Nat)
deriving DecidableEq, Repr

namespace MemoryStore

/-- From source (`MemoryStore.Store`): sets refresh-at to now + 1 hour,
expire-at to the given expiration, and the value; the `publisher` argument
is accepted and ignored by the source body. -/
def Store (ms : MemoryStore) (now : Nat) (key dat : List Nat)
    (expiration : Nat) (publisher : Bool) : MemoryStore :=
  { refreshMap := aset key (now + tRefresh) ms.refreshMap
    expireMap := aset key expiration ms.expireMap
    data := aset key dat ms.data }

/-- From source (`MemoryStore.Retrieve`): map read returning (data, exists). -/
def Retrieve (ms : MemoryStore) (key : List Nat) : Option (List Nat) × Bool :=
  match alookup key ms.data with
  | some d => (some d, true)
  | none => (none, false)

/-- From source (`MemoryStore.ExpireKeys` loop guard): key `key` is swept
when `time.Now().After(expireMap[key])`, i.e. when expire-at < now strictly. -/
def expiredAt (ms : MemoryStore) (now : Nat) (key : List Nat) : Bool :=
  match alookup key ms.expireMap with
  | some e => decide (e < now)
  | none => false

/-- From source (`MemoryStore.ExpireKeys`): for every key of the expire map
whose instant is strictly before now, delete it from all three maps. -/
def ExpireKeys (ms : MemoryStore) (now : Nat) : MemoryStore :=
  { data := ms.data.filter (fun kv => ! ms.expiredAt now kv.1)
    refreshMap := ms.refreshMap.filter (fun kv => ! ms.expiredAt now kv.1)
    expireMap := ms.expireMap.filter (fun kv => ! ms.expiredAt now kv.1) }

/-- From source (`MemoryStore.GetAllKeysForRefresh`): keys of the data map
whose refresh instant is strictly before now (a missing refresh entry reads
as the zero instant). -/
def GetAllKeysForRefresh (ms : MemoryStore) (now : Nat) : List (List Nat) :=
  (ms.data.filter (fun kv =>
    match alookup kv.1 ms.refreshMap with
    | some rt => decide (rt < now)
    | none => decide (0 < now))).map (fun kv => kv.1)

/-- From source (`MemoryStore.Delete`): removes the key from the data map only. -/
def Delete (ms : MemoryStore) (key : List Nat) : MemoryStore :=
  { ms with data := ms.data.filter (fun kv => kv.1 ≠ key) }

end MemoryStore

/-- C10: the `publisher` argument of `MemoryStore.Store` has no effect on
any observable state: storing with publisher = true and publisher = false
produce identical store states, hence identical results for `Retrieve`,
`GetAllKeysForRefresh` and `ExpireKeys`. -/
theorem store_publisher_irrelevant :
    ∀ (ms : MemoryStore) (now : Nat) (key dat : List Nat) (expiration : Nat),
      MemoryStore.Store ms now key dat expiration true =
        MemoryStore.Store ms now key dat expiration false ∧
      (∀ q, (MemoryStore.Store ms now key dat expiration true).Retrieve q =
        (MemoryStore.Store ms now key dat expiration false).Retrieve q) ∧
      (∀ t, (MemoryStore.Store ms now key dat expiration true).GetAllKeysForRefresh t =
        (MemoryStore.Store ms now key dat expiration false).GetAllKeysForRefresh t) ∧
      (∀ t, (MemoryStore.Store ms now key dat expiration true).ExpireKeys t =
        (MemoryStore.Store ms now key dat expiration false).ExpireKeys t) :=
  fun _ _ _ _ _ => ⟨rfl, fun _ => rfl, fun _ => rfl, fun _ => rfl⟩

/-- A concrete store: one entry with value [9], refresh-at 7, expire-at 5. -/
def msC7 : MemoryStore :=
  { data := [([1], [9])], refreshMap := [([1], 7)], expireMap := [([1], 5)] }

/-- C7 counterexample: the claim says an entry whose expire-at equals now is
removed by `ExpireKeys`; in the source the sweep guard is `time.Now().After(v)`
(strict), so at now = 5 the entry with expire-at 5 ≤ 5 survives and
`Retrieve` still returns it. -/
theorem expireKeys_boundary_counterexample :
    alookup [1] msC7.expireMap = some 5 ∧ 5 ≤ 5 ∧
      (msC7.ExpireKeys 5).Retrieve [1] ≠ (none, false) ∧
      (msC7.ExpireKeys 5).Retrieve [1] = (some [9], true) := by
  decide

/-- C7 amended: `ExpireKeys` removes exactly those entries whose expire-at is
strictly before now (an entry with expire-at = now is retained); retained
entries keep their value, refresh-at and expire-at unchanged. -/
theorem expireKeys_exact :
    ∀ (ms : MemoryStore) (now : Nat) (key : List Nat),
      ((ms.ExpireKeys now).Retrieve key =
        (if ms.expiredAt now key then (none, false) else ms.Retrieve key)) ∧
      (alookup key (ms.ExpireKeys now).refreshMap =
        (if ms.expiredAt now key then none else alookup key ms.refreshMap)) ∧
      (alookup key (ms.ExpireKeys now).expireMap =
        (if ms.expiredAt now key then none else alookup key ms.expireMap)) ∧
      (ms.expiredAt now key = true ↔
        ∃ e, alookup key ms.expireMap = some e ∧ e < now) := by
  intro ms now key
  refine ⟨?_, ?_, ?_, ?_⟩
  · unfold MemoryStore.ExpireKeys MemoryStore.Retrieve
    rw [alookup_filter_key]
    cases h : ms.expiredAt now key <;> simp [h]
  · unfold MemoryStore.ExpireKeys
    exact alookup_filter_key _ _ _
  · unfold MemoryStore.ExpireKeys
    exact alookup_filter_key _ _ _
  · unfold MemoryStore.expiredAt
    cases h : alookup key ms.expireMap with
    | none => simp
    | some e => simp

/-! ### The listen-loop handling of an incoming QueryStore (claim C5) -/

/-- The arguments of one invocation of the local store's 4-argument Store. -/
structure StoreCall where
  key : List Nat
  dat : List Nat
  expiration : Nat
  publisher : Bool
deriving DecidableEq, Repr

/-- From source dht.go (listen, case messageTypeQueryStore): the handler
stores the carried (key, data) pair locally and sends nothing.  The source
calls a two-argument `dht.store.Store(data.Key, data.Data)` whose gluing
interface is not under src; per the spec's resolution the wire/listener path
populates `expire_at = now + Texpire`, `publisher = false`
(Modelled from the spec: the dht-package Store interface file is missing).
Returns the new store state, the store call made, and the replies sent. -/
def handleQueryStore (ms : MemoryStore) (now : Nat) (key dat : List Nat) :
    MemoryStore × StoreCall × List message :=
  let call : StoreCall := ⟨key, dat, now + tExpire, false⟩
  (MemoryStore.Store ms now call.key call.dat call.expiration call.publisher, call, [])

/-- C5: handling an incoming QueryStore stores the carried (key, data) pair
with expire-at = now + Texpire and publisher = false, and sends no reply. -/
theorem handleQueryStore_spec :
    ∀ (ms : MemoryStore) (now : Nat) (key dat : List Nat),
      (handleQueryStore ms now key dat).2.2 = [] ∧
      (handleQueryStore ms now key dat).2.1.publisher = false ∧
      (handleQueryStore ms now key dat).2.1.expiration = now + tExpire ∧
      (handleQueryStore ms now key dat).2.1.key = key ∧
      (handleQueryStore ms now key dat).2.1.dat = dat ∧
      (handleQueryStore ms now key dat).1 =
        MemoryStore.Store ms now key dat (now + tExpire) false ∧
      (handleQueryStore ms now key dat).1.Retrieve key = (some dat, true) ∧
      alookup key (handleQueryStore ms now key dat).1.expireMap = some (now + tExpire) := by
  intro ms now key dat
  refine ⟨rfl, rfl, rfl, rfl, rfl, rfl, ?_, ?_⟩
  · unfold handleQueryStore MemoryStore.Store MemoryStore.Retrieve
    simp [alookup_aset_self]
  · unfold handleQueryStore MemoryStore.Store
    simp [alookup_aset_self]

/-! ### Message codec (claim C8)

Modelled from the spec: the wire codec (Go file netmsg.go) is not under
src — only its round-trip test is.  Spec §4.3 fixes the contract: a
length-prefixed frame carrying the typed envelope, round-trip faithful for
every field including the nullable value and error fields; the exact byte
representation is an implementation choice.  Wire symbols are `Nat`s. -/

/-- Modelled from the spec: encode one integer as one wire symbol. -/
def encNat (n : Nat) : List Nat := [n]

/-- Modelled from the spec: decode one integer, returning the remainder. -/
def decNat : List Nat → Option (Nat × List Nat)
  | [] => none
  | x :: r => some (x, r)

/-- Modelled from the spec: encode a boolean flag. -/
def encBool (b : Bool) : List Nat := [if b then 1 else 0]

/-- Modelled from the spec: decode a boolean flag; anything else fails. -/
def decBool : List Nat → Option (Bool × List Nat)
  | 0 :: r => some (false, r)
  | 1 :: r => some (true, r)
  | _ => none

/-- Modelled from the spec: a byte string is sent length-prefixed. -/
def encBytes (bs : List Nat) : List Nat := bs.length :: bs

/-- Modelled from the spec: decode a length-prefixed byte string;
truncated input fails. -/
def decBytes (l : List Nat) : Option (List Nat × List Nat) :=
  match l with
  | [] => none
  | n :: r => if n ≤ r.length then some (r.take n, r.drop n) else none

/-- Modelled from the spec: a nullable field is sent with a presence tag. -/
def encOpt (enc : α → List Nat) : Option α → List Nat
  | none => [0]
  | some x => 1 :: enc x

/-- Modelled from the spec: decode a nullable field. -/
def decOpt (dec : List Nat → Option (α × List Nat)) : List Nat → Option (Option α × List Nat)
  | 0 :: r => some (none, r)
  | 1 :: r =>
    match dec r with
    | some (x, r') => some (some x, r')
    | none => none
  | _ => none

/-- Modelled from the spec: a network address is (id, ip, port). -/
def encNode (n : NetworkNode) : List Nat :=
  encBytes n.id ++ encNat n.ip ++ encNat n.port

/-- Modelled from the spec: decode a network address. -/
def decNode (l : List Nat) : Option (NetworkNode × List Nat) := do
  let (idb, r1) ← decBytes l
  let (ipv, r2) ← decNat r1
  let (portv, r3) ← decNat r2
  pure (⟨idb, ipv, portv⟩, r3)

/-- Modelled from the spec: a node sequence is sent count-prefixed. -/
def encNodeList (ns : List NetworkNode) : List Nat :=
  ns.length :: (ns.map encNode).flatten

/-- Modelled from the spec: decode `count` network addresses. -/
def decNodesAux : Nat → List Nat → Option (List NetworkNode × List Nat)
  | 0, r => some ([], r)
  | n + 1, r =>
    match decNode r with
    | none => none
    | some (nd, r') =>
      match decNodesAux n r' with
      | none => none
      | some (nds, r'') => some (nd :: nds, r'')

/-- Modelled from the spec: decode a count-prefixed node sequence. -/
def decNodeList : List Nat → Option (List NetworkNode × List Nat)
  | [] => none
  | n :: r => decNodesAux n r

/-- Modelled from the spec: payloads are sent with a variant tag followed by
the variant's fields. -/
def encData : MsgData → List Nat
  | .queryFindNode t => 0 :: encBytes t
  | .responseFindNode cl => 1 :: encNodeList cl
  | .queryFindValue t => 2 :: encBytes t
  | .responseFindValue v cl => 3 :: (encOpt encBytes v ++ encNodeList cl)
  | .queryStore key dat => 4 :: (encBytes key ++ encBytes dat)
  | .queryPing => [5]
  | .responsePing => [6]

/-- Modelled from the spec: decode a tagged payload; unknown tags fail. -/
def decData : List Nat → Option (MsgData × List Nat)
  | 0 :: r => do
    let (t, r') ← decBytes r
    pure (.queryFindNode t, r')
  | 1 :: r => do
    let (cl, r') ← decNodeList r
    pure (.responseFindNode cl, r')
  | 2 :: r => do
    let (t, r') ← decBytes r
    pure (.queryFindValue t, r')
  | 3 :: r => do
    let (v, r1) ← decOpt decBytes r
    let (cl, r2) ← decNodeList r1
    pure (.responseFindValue v cl, r2)
  | 4 :: r => do
    let (key, r1) ← decBytes r
    let (dat, r2) ← decBytes r1
    pure (.queryStore key dat, r2)
  | 5 :: r => some (.queryPing, r)
  | 6 :: r => some (.responsePing, r)
  | _ => none

/-- Modelled from the spec: the envelope body is the concatenation of its
fields in declaration order. -/
def encodeMessage (m : message) : List Nat :=
  encNat m.id ++ encNode m.sender ++ encNode m.receiver ++
    encBool m.isResponse ++ encOpt encBytes m.error ++ encData m.data

/-- Modelled from the spec: decode an envelope body. -/
def decodeMessage (l : List Nat) : Option (message × List Nat) := do
  let (mid, r1) ← decNat l
  let (snd, r2) ← decNode r1
  let (rcv, r3) ← decNode r2
  let (isr, r4) ← decBool r3
  let (er, r5) ← decOpt decBytes r4
  let (dt, r6) ← decData r5
  pure (⟨mid, snd, rcv, isr, er, dt⟩, r6)

/-- Modelled from the spec (and named as in the source test): a frame is the
body prefixed by its length. -/
def serializeMessage (m : message) : List Nat :=
  (encodeMessage m).length :: encodeMessage m

/-- Modelled from the spec (and named as in the source test): check the
frame length, then decode the body; leftover bytes or truncation fail. -/
def deserializeMessage (l : List Nat) : Option message :=
  match l with
  | [] => none
  | n :: r =>
    if r.length = n then
      match decodeMessage r with
      | some (m, []) => some m
      | _ => none
    else none

theorem decNat_enc (n : Nat) (r : List Nat) : decNat (encNat n ++ r) = some (n, r) := rfl

theorem decBool_enc (b : Bool) (r : List Nat) : decBool (encBool b ++ r) = some (b, r) := by
  cases b <;> rfl

theorem decBytes_enc (bs r : List Nat) : decBytes (encBytes bs ++ r) = some (bs, r) := by
  simp [encBytes, decBytes, List.take_left, List.drop_left]

theorem decOpt_enc (enc : α → List Nat) (dec : List Nat → Option (α × List Nat))
    (hdec : ∀ x r, dec (enc x ++ r) = some (x, r)) (o : Option α) (r : List Nat) :
    decOpt dec (encOpt enc o ++ r) = some (o, r) := by
  cases o with
  | none => rfl
  | some x => simp [encOpt, decOpt, hdec]

theorem decNode_enc (n : NetworkNode) (r : List Nat) : decNode (encNode n ++ r) = some (n, r) := by
  simp [encNode, decNode, List.append_assoc, decBytes_enc, decNat_enc]

theorem decNodesAux_enc (ns : List NetworkNode) (r : List Nat) :
    decNodesAux ns.length ((ns.map encNode).flatten ++ r) = some (ns, r) := by
  induction ns generalizing r with
  | nil => rfl
  | cons nd rest ih =>
    simp [decNodesAux, List.append_assoc, decNode_enc, ih]

theorem decNodeList_enc (ns : List NetworkNode) (r : List Nat) :
    decNodeList (encNodeList ns ++ r) = some (ns, r) := by
  simp [encNodeList, decNodeList, decNodesAux_enc]

theorem decData_enc (d : MsgData) (r : List Nat) : decData (encData d ++ r) = some (d, r) := by
  cases d with
  | queryFindNode t => simp [encData, decData, decBytes_enc]
  | responseFindNode cl => simp [encData, decData, decNodeList_enc]
  | queryFindValue t => simp [encData, decData, decBytes_enc]
  | responseFindValue v cl =>
    simp [encData, decData, List.append_assoc, decOpt_enc encBytes decBytes decBytes_enc,
      decNodeList_enc]
  | queryStore key dat => simp [encData, decData, List.append_assoc, decBytes_enc]
  | queryPing => rfl
  | responsePing => rfl

theorem decodeMessage_enc (m : message) (r : List Nat) :
    decodeMessage (encodeMessage m ++ r) = some (m, r) := by
  simp [encodeMessage, decodeMessage, List.append_assoc, decNat_enc, decNode_enc,
    decBool_enc, decOpt_enc encBytes decBytes decBytes_enc, decData_enc]

/-- C8: the codec is round-trip faithful — deserializing the serialization
of any well-formed envelope of any payload variant yields the original
message, every field (including the nullable value and error fields)
preserved. -/
theorem serialize_roundtrip : ∀ m : message, deserializeMessage (serializeMessage m) = some m := by
  intro m
  have h := decodeMessage_enc m []
  rw [List.append_nil] at h
  simp [serializeMessage, deserializeMessage, h]

/-! ### SHA-1 and the key computed by DHT.Store (claim C2)

`DHT.Store` in dht.go computes its key as `sha := sha1.New(); key := sha.Sum(data)`.
A reference SHA-1 (FIPS 180) is defined below so the divergence can be
evaluated: Go's `hash.Hash.Sum(b)` appends the digest of the bytes written
so far to `b`, and nothing was written, so the key is `data ++ SHA1("")`. -/

/-- Truncation to a 32-bit word. -/
def w32 (n : Nat) : Nat := n % 4294967296

/-- Left rotation of a 32-bit word by `s` bits. -/
def rotl (s x : Nat) : Nat := (x * 2 ^ s) % 4294967296 + x / 2 ^ (32 - s)

/-- Big-endian bytes to 32-bit words (SHA-1 message schedule input). -/
def bytesToWords : List Nat → List Nat
  | a :: b :: c :: d :: rest => (((a * 256 + b) * 256 + c) * 256 + d) :: bytesToWords rest
  | _ => []

/-- SHA-1 message-schedule extension of 16 words to 80. -/
def extendWords (ws : List Nat) : List Nat :=
  (List.range 64).foldl
    (fun acc _ =>
      acc ++ [rotl 1 (Nat.xor
        (Nat.xor (acc.getD (acc.length - 3) 0) (acc.getD (acc.length - 8) 0))
        (Nat.xor (acc.getD (acc.length - 14) 0) (acc.getD (acc.length - 16) 0)))])
    ws

/-- SHA-1 round function per 20-round segment. -/
def sha1F (t b c d : Nat) : Nat :=
  if t < 20 then Nat.lor (Nat.land b c) (Nat.land (4294967295 - b) d)
  else if t < 40 then Nat.xor (Nat.xor b c) d
  else if t < 60 then Nat.lor (Nat.lor (Nat.land b c) (Nat.land b d)) (Nat.land c d)
  else Nat.xor (Nat.xor b c) d

/-- SHA-1 round constant per 20-round segment. -/
def sha1K (t : Nat) : Nat :=
  if t < 20 then 1518500249
  else if t < 40 then 1859775393
  else if t < 60 then 2400959708
  else 3395469782

/-- SHA-1 compression of one 64-byte chunk into the running state. -/
def processChunk (hs : List Nat) (chunk : List Nat) : List Nat :=
  let ws := extendWords (bytesToWords chunk)
  let final := (List.range 80).foldl
    (fun (st : Nat × Nat × Nat × Nat × Nat) t =>
      let temp := w32 (rotl 5 st.1 + sha1F t st.2.1 st.2.2.1 st.2.2.2.1 + st.2.2.2.2 +
        sha1K t + ws.getD t 0)
      (temp, st.1, rotl 30 st.2.1, st.2.2.1, st.2.2.2.1))
    (hs.getD 0 0, hs.getD 1 0, hs.getD 2 0, hs.getD 3 0, hs.getD 4 0)
  [w32 (hs.getD 0 0 + final.1), w32 (hs.getD 1 0 + final.2.1),
   w32 (hs.getD 2 0 + final.2.2.1), w32 (hs.getD 3 0 + final.2.2.2.1),
   w32 (hs.getD 4 0 + final.2.2.2.2)]

/-- Big-endian encoding of a value into a fixed number of bytes. -/
def beBytes : Nat → Nat → List Nat
  | 0, _ => []
  | n + 1, v => beBytes n (v / 256) ++ [v % 256]

/-- SHA-1 padding: 0x80, zeros to 56 mod 64, 8-byte big-endian bit length. -/
def sha1Pad (msg : List Nat) : List Nat :=
  msg ++ [128] ++ List.replicate ((119 - msg.length % 64) % 64) 0 ++ beBytes 8 (8 * msg.length)

/-- Split a (padded) byte stream into 64-byte chunks. -/
def chunks64 (l : List Nat) : List (List Nat) :=
  (l.foldl
    (fun (acc : List (List Nat) × List Nat) b =>
      let cur := acc.2 ++ [b]
      if cur.length = 64 then (acc.1 ++ [cur], []) else (acc.1, cur))
    ([], [])).1

/-- The 20-byte SHA-1 digest of a byte string. -/
def sha1Digest (msg : List Nat) : List Nat :=
  let hs := (chunks64 (sha1Pad msg)).foldl processChunk
    [1732584193, 4023233417, 2562383102, 271733878, 3285377520]
  (hs.map (beBytes 4)).flatten

/-- From source dht.go (`DHT.Store`): `sha := sha1.New(); key := sha.Sum(data)`.
Go's `hash.Hash.Sum` appends the digest of the bytes written so far (here:
none) to its argument, so the computed key is `data ++ SHA1("")`, and it is
this key that is stored locally, published by `iterate(Store)`, and returned
base58-encoded. -/
def dhtStoreKey (dat : List Nat) : List Nat := dat ++ sha1Digest []

/-- The bytes of the string "hello". -/
def helloBytes : List Nat := [104, 101, 108, 108, 111]

/-- C2 (code_bug): the claim — `Put(data)` keys by the 20-byte SHA-1 of the
data — matches the spec's clear intent, but the source computes
`sha.Sum(data)` on a fresh hash, which yields `data ++ SHA1("")`: for
"hello" a 25-byte key different from SHA1("hello"). -/
theorem dhtStoreKey_not_sha1 :
    dhtStoreKey helloBytes = helloBytes ++ sha1Digest [] ∧
    sha1Digest [] = [218, 57, 163, 238, 94, 107, 75, 13, 50, 85,
      191, 239, 149, 96, 24, 144, 175, 216, 7, 9] ∧
    sha1Digest helloBytes = [170, 244, 198, 29, 220, 197, 232, 162, 218, 190,
      222, 15, 59, 72, 44, 217, 174, 169, 67, 77] ∧
    (dhtStoreKey helloBytes).length = 25 ∧
    (sha1Digest helloBytes).length = 20 ∧
    dhtStoreKey helloBytes ≠ sha1Digest helloBytes := by
  have hempty : sha1Digest [] = [218, 57, 163, 238, 94, 107, 75, 13, 50, 85,
      191, 239, 149, 96, 24, 144, 175, 216, 7, 9] := by decide
  have hhello : sha1Digest helloBytes = [170, 244, 198, 29, 220, 197, 232, 162, 218, 190,
      222, 15, 59, 72, 44, 217, 174, 169, 67, 77] := by decide
  refine ⟨rfl, hempty, hhello, ?_, ?_, ?_⟩
  · rw [dhtStoreKey, hempty]; rfl
  · rw [hhello]; rfl
  · rw [dhtStoreKey, hempty, hhello]; decide

/-! ### Routing table and addNode (claims C4, C9) -/

/-- Position of the highest set bit of a byte value (0 for 0 or 1). -/
def byteHighBit (d : Nat) : Nat :=
  if 128 ≤ d then 7
  else if 64 ≤ d then 6
  else if 32 ≤ d then 5
  else if 16 ≤ d then 4
  else if 8 ≤ d then 3
  else if 4 ≤ d then 2
  else if 2 ≤ d then 1
  else 0

/-- Modelled from the spec: bucket index of the highest bit at which the two
ids differ, counted so that a difference in the most significant bit yields
the largest index (spec §4.1; the Go hashtable file is not under src). -/
def getBucketIndexFromDifferingBit : List Nat → List Nat → Nat
  | x :: xs, y :: ys =>
    let d := Nat.xor x y % 256
    if d = 0 then getBucketIndexFromDifferingBit xs ys
    else 8 * xs.length + byteHighBit d
  | _, _ => 0

/-- From source (type `hashTable`): the owner's address plus the k-bucket
list, indexed by differing-bit position. -/
structure hashTable where
  Self : NetworkNode
  RoutingTable : List (List NetworkNode)
deriving DecidableEq, Repr

/-- Outcome of the liveness ping that `addNode` issues when the target
bucket is full: the send fails synchronously, a pong arrives within
tPingMax, or the wait times out. -/
inductive PingOutcome where
  | sendFail
  | pong
  | timeout
deriving DecidableEq, Repr

namespace DHT

/-- From source dht.go (`DHT.addNode`), the mutation applied to the target
bucket: return it unchanged if the id is already present; if it holds k
entries, ping the head — on pong keep the bucket as is, on send failure or
timeout append the new node and slice off the head; otherwise append at the
tail. -/
def addNodeBucket (bucket : List NetworkNode) (node : NetworkNode)
    (ping : PingOutcome) : List NetworkNode :=
  if bucket.any (fun v => v.id = node.id) then bucket
  else if bucket.length = k then
    match ping with
    | .pong => bucket
    | .sendFail => (bucket ++ [node]).drop 1
    | .timeout => (bucket ++ [node]).drop 1
  else bucket ++ [node]

/-- From source dht.go (`DHT.addNode`): locate the bucket by differing bit
and apply the insertion policy to it. -/
def addNode (ht : hashTable) (node : NetworkNode) (ping : PingOutcome) : hashTable :=
  let index := getBucketIndexFromDifferingBit ht.Self.id node.id
  let bucket := ht.RoutingTable.getD index []
  { ht with RoutingTable := ht.RoutingTable.set index (addNodeBucket bucket node ping) }

end DHT

/-- The bucket index `addNode` uses for `node` in `ht`. -/
def bucketIndexOf (ht : hashTable) (node : NetworkNode) : Nat :=
  getBucketIndexFromDifferingBit ht.Self.id node.id

/-- The bucket `addNode` inspects for `node` in `ht`. -/
def bucketOf (ht : hashTable) (node : NetworkNode) : List NetworkNode :=
  ht.RoutingTable.getD (bucketIndexOf ht node) []

theorem getD_set_self (l : List α) (i : Nat) (x d : α) (h : i < l.length) :
    (l.set i x).getD i d = x := by
  induction l generalizing i with
  | nil => simp at h
  | cons a rest ih =>
    cases i with
    | zero => rfl
    | succ j => exact ih j (Nat.lt_of_succ_lt_succ h)

theorem getD_set_ne (l : List α) (i j : Nat) (x d : α) (h : j ≠ i) :
    (l.set i x).getD j d = l.getD j d := by
  induction l generalizing i j with
  | nil => simp [List.set]
  | cons a rest ih =>
    cases i with
    | zero =>
      cases j with
      | zero => exact absurd rfl h
      | succ j' => rfl
    | succ i' =>
      cases j with
      | zero => rfl
      | succ j' => exact ih i' j' (fun hc => h (congrArg Nat.succ hc))

theorem mem_of_mem_set (l : List α) (i : Nat) (x b : α) (h : b ∈ l.set i x) :
    b ∈ l ∨ b = x := by
  induction l generalizing i with
  | nil => simp [List.set] at h
  | cons a rest ih =>
    cases i with
    | zero =>
      rcases List.mem_cons.mp h with h1 | h1
      · exact Or.inr h1
      · exact Or.inl (List.mem_cons_of_mem _ h1)
    | succ i' =>
      rcases List.mem_cons.mp h with h1 | h1
      · exact Or.inl (h1 ▸ List.mem_cons_self a rest)
      · rcases ih i' h1 with h2 | h2
        · exact Or.inl (List.mem_cons_of_mem _ h2)
        · exact Or.inr h2

theorem bucketOf_addNode (ht : hashTable) (node : NetworkNode) (ping : PingOutcome)
    (hidx : bucketIndexOf ht node < ht.RoutingTable.length) :
    bucketOf (DHT.addNode ht node ping) node =
      DHT.addNodeBucket (bucketOf ht node) node ping :=
  getD_set_self _ _ _ _ hidx

/-- Concrete nodes for the C4 counterexample: both land in bucket 1 of a
table owned by id [0, 0]. -/
def rtNodeA : NetworkNode := ⟨[0, 2], 0, 0⟩

/-- Second concrete node for the C4 counterexample. -/
def rtNodeB : NetworkNode := ⟨[0, 3], 0, 0⟩

/-- A concrete routing table whose bucket 1 holds rtNodeA (head) and rtNodeB. -/
def htC4 : hashTable := ⟨⟨[0, 0], 0, 0⟩, [[], [rtNodeA, rtNodeB]]⟩

/-- A full bucket of 20 distinct nodes, all landing in bucket 7 of a table
owned by id [0]. -/
def fullBucket : List NetworkNode := (List.range 20).map (fun i => ⟨[128 + i], 0, 0⟩)

/-- A concrete routing table whose bucket 7 is full. -/
def htFull : hashTable := ⟨⟨[0], 0, 0⟩, [[], [], [], [], [], [], [], fullBucket]⟩

/-- A fresh node landing in the full bucket 7 of htFull. -/
def newNode148 : NetworkNode := ⟨[148], 0, 0⟩

/-- C4 counterexample: (a) adding a contact whose id is already in its
bucket leaves the bucket unchanged — the existing entry is NOT moved to the
tail; (b) when the bucket is full and the head answers the ping, the new
contact is discarded but the head is NOT moved to the tail: the whole table
is unchanged. -/
theorem addNode_counterexample :
    (DHT.addNode htC4 rtNodeA .pong).RoutingTable = [[], [rtNodeA, rtNodeB]] ∧
    rtNodeA ∈ bucketOf htC4 rtNodeA ∧
    (DHT.addNode htC4 rtNodeA .pong).RoutingTable ≠ [[], [rtNodeB, rtNodeA]] ∧
    bucketOf htFull newNode148 = fullBucket ∧
    fullBucket.length = k ∧
    DHT.addNode htFull newNode148 .pong = htFull ∧
    bucketOf (DHT.addNode htFull newNode148 .pong) newNode148 ≠
      fullBucket.tail ++ [⟨[128], 0, 0⟩] := by
  decide

/-- C4 amended: addNode's policy per the source — an already-present id
leaves its bucket unchanged (no move to the tail); a non-full bucket gets
the contact appended at the tail; a full bucket whose head answers the
ping is left unchanged (the new contact is discarded, the head stays at the
head); a full bucket whose ping send fails or times out loses its head and
gains the new contact at the tail.  All other buckets are untouched. -/
theorem addNode_policy (ht : hashTable) (node : NetworkNode) (ping : PingOutcome)
    (hidx : bucketIndexOf ht node < ht.RoutingTable.length) :
    ((∃ v ∈ bucketOf ht node, v.id = node.id) →
      bucketOf (DHT.addNode ht node ping) node = bucketOf ht node) ∧
    ((¬ ∃ v ∈ bucketOf ht node, v.id = node.id) → (bucketOf ht node).length < k →
      bucketOf (DHT.addNode ht node ping) node = bucketOf ht node ++ [node]) ∧
    ((¬ ∃ v ∈ bucketOf ht node, v.id = node.id) → (bucketOf ht node).length = k →
      ping = .pong →
      bucketOf (DHT.addNode ht node ping) node = bucketOf ht node) ∧
    ((¬ ∃ v ∈ bucketOf ht node, v.id = node.id) → (bucketOf ht node).length = k →
      ping ≠ .pong →
      bucketOf (DHT.addNode ht node ping) node = (bucketOf ht node).tail ++ [node]) ∧
    (∀ j, j ≠ bucketIndexOf ht node →
      (DHT.addNode ht node ping).RoutingTable.getD j [] = ht.RoutingTable.getD j []) := by
  have hb := bucketOf_addNode ht node ping hidx
  refine ⟨?_, ?_, ?_, ?_, ?_⟩
  · intro hex
    have hany : (bucketOf ht node).any (fun v => v.id = node.id) = true := by
      simp only [List.any_eq_true, decide_eq_true_eq]
      exact hex
    rw [hb, DHT.addNodeBucket.eq_def, if_pos hany]
  · intro hex hlen
    have hany : ¬ (bucketOf ht node).any (fun v => v.id = node.id) = true := by
      simp only [List.any_eq_true, decide_eq_true_eq]
      exact hex
    rw [hb, DHT.addNodeBucket.eq_def, if_neg hany, if_neg (Nat.ne_of_lt hlen)]
  · intro hex hlen hping
    have hany : ¬ (bucketOf ht node).any (fun v => v.id = node.id) = true := by
      simp only [List.any_eq_true, decide_eq_true_eq]
      exact hex
    subst hping
    rw [hb, DHT.addNodeBucket.eq_def, if_neg hany, if_pos hlen]
  · intro hex hlen hping
    have hany : ¬ (bucketOf ht node).any (fun v => v.id = node.id) = true := by
      simp only [List.any_eq_true, decide_eq_true_eq]
      exact hex
    have hcons : bucketOf ht node ≠ [] := by
      intro hnil
      rw [hnil] at hlen
      simp [k] at hlen
    rw [hb, DHT.addNodeBucket.eq_def, if_neg hany, if_pos hlen]
    cases hp : ping with
    | pong => exact absurd hp hping
    | sendFail =>
      cases hbv : bucketOf ht node with
      | nil => exact absurd hbv hcons
      | cons a rest => simp
    | timeout =>
      cases hbv : bucketOf ht node with
      | nil => exact absurd hbv hcons
      | cons a rest => simp
  · intro j hj
    exact getD_set_ne _ _ _ _ _ hj

/-- C4 amended, witness: the already-present branch at the concrete htC4. -/
theorem addNode_policy_witness :
    bucketOf (DHT.addNode htC4 rtNodeA .pong) rtNodeA = bucketOf htC4 rtNodeA :=
  (addNode_policy htC4 rtNodeA .pong (by decide)).1 (by decide)

theorem getD_mem_or_default (l : List α) (i : Nat) (d : α) :
    l.getD i d ∈ l ∨ l.getD i d = d := by
  induction l generalizing i with
  | nil => right; cases i <;> rfl
  | cons a rest ih =>
    cases i with
    | zero => left; exact List.mem_cons_self a rest
    | succ j =>
      rcases ih j with h | h
      · left; exact List.mem_cons_of_mem _ h
      · right; exact h

theorem addNodeBucket_length (bucket : List NetworkNode) (node : NetworkNode)
    (ping : PingOutcome) (h : bucket.length ≤ k) :
    (DHT.addNodeBucket bucket node ping).length ≤ k := by
  unfold DHT.addNodeBucket
  by_cases hany : bucket.any (fun v => v.id = node.id) = true
  · rw [if_pos hany]; exact h
  · rw [if_neg hany]
    by_cases hfull : bucket.length = k
    · rw [if_pos hfull]
      cases ping with
      | pong => exact h
      | sendFail => simp; omega
      | timeout => simp; omega
    · rw [if_neg hfull]
      have hlt : bucket.length < k := Nat.lt_of_le_of_ne h hfull
      simp
      omega

theorem addNode_tableOk (ht : hashTable) (node : NetworkNode) (ping : PingOutcome)
    (h : ∀ b ∈ ht.RoutingTable, b.length ≤ k) :
    ∀ b ∈ (DHT.addNode ht node ping).RoutingTable, b.length ≤ k := by
  intro b hb
  simp only [DHT.addNode] at hb
  rcases mem_of_mem_set _ _ _ _ hb with hmem | heq
  · exact h b hmem
  · subst heq
    apply addNodeBucket_length
    rcases getD_mem_or_default ht.RoutingTable
        (getBucketIndexFromDifferingBit ht.Self.id node.id) [] with hm | hd
    · exact h _ hm
    · rw [hd]; exact Nat.zero_le k

/-- C9: bucket capacity is invariant — starting from any table whose buckets
all hold at most k contacts, after any sequence of addNode calls (each with
an arbitrary ping outcome) every bucket still holds at most k contacts. -/
theorem addNode_buckets_bounded (ht : hashTable) (ops : List (NetworkNode × PingOutcome))
    (h : ∀ b ∈ ht.RoutingTable, b.length ≤ k) :
    ∀ b ∈ (ops.foldl (fun acc op => DHT.addNode acc op.1 op.2) ht).RoutingTable,
      b.length ≤ k := by
  induction ops generalizing ht with
  | nil => exact h
  | cons op rest ih =>
    simp only [List.foldl_cons]
    exact ih _ (addNode_tableOk _ _ _ h)

/-- C9 witness: after two concrete addNode calls on the concrete table
htFull (one full bucket, one fresh contact), bucket 7 still holds at most
k contacts. -/
theorem addNode_buckets_bounded_witness :
    ((([(newNode148, PingOutcome.timeout), (rtNodeA, PingOutcome.pong)] :
        List (NetworkNode × PingOutcome)).foldl
      (fun acc op => DHT.addNode acc op.1 op.2) htFull).RoutingTable.getD 7 []).length ≤ k :=
  addNode_buckets_bounded htFull
    [(newNode148, PingOutcome.timeout), (rtNodeA, PingOutcome.pong)]
    (by decide) _ (by decide)

/-! ### The iterative lookup engine (claims C1, C3, C6)

`DHT.iterate` from dht.go, embedded as a fuel-bounded loop over an explicit
state.  The network is a function from a peer id to the reply that peer
sends back (claims about iterate concern networks of responding peers, so
every queried peer delivers a reply); ping outcomes for the addNode calls
made while merging responses are supplied by an oracle indexed by call
count.  The shortlist operations and the constants k, alpha are modelled
from the spec (their Go files are not under src); the loop structure,
selection, error handling, merging, convergence test and Store fan-out are
from the source. -/

/-- From source dht.go: the three iterate kinds (iterateFindNode,
iterateFindValue, iterateStore). -/
inductive IterType where
  | findNode
  | findValue
  | store
deriving DecidableEq, Repr

/-- XOR distance between two ids read as big-endian integers (spec §3);
ids of equal length are compared bytewise. -/
def xorDist : List Nat → List Nat → Nat
  | a :: as, b :: bs => Nat.xor a b * 256 ^ as.length + xorDist as bs
  | _, _ => 0

/-- Modelled from the spec: the shortlist sort comparator — ascending XOR
distance to the lookup target (the shortlist Go file is not under src). -/
def nearer (target : List Nat) (a b : NetworkNode) : Prop :=
  xorDist a.id target ≤ xorDist b.id target

instance (target : List Nat) : DecidableRel (nearer target) :=
  fun _ _ => Nat.decLe _ _

instance (target : List Nat) : IsTotal NetworkNode (nearer target) :=
  ⟨fun _ _ => Nat.le_total _ _⟩

instance (target : List Nat) : IsTrans NetworkNode (nearer target) :=
  ⟨fun _ _ _ h1 h2 => Nat.le_trans h1 h2⟩

/-- Modelled from the spec: `sort.Sort(sl)` — sort the shortlist by
distance to the target (spec §4.6). -/
def sortByDist (target : List Nat) (sl : List NetworkNode) : List NetworkNode :=
  sl.insertionSort (nearer target)

/-- Modelled from the spec: `ShortList.RemoveNode` removes by id (spec §9:
removal happens by id, not by reference). -/
def removeNodeById (sl : List NetworkNode) (nid : List Nat) : List NetworkNode :=
  sl.filter (fun n => n.id ≠ nid)

/-- Modelled from the spec: `AppendUniqueNetworkNodes` appends exactly the
nodes whose id is not yet present (spec §4.6). -/
def appendUnique (sl ns : List NetworkNode) : List NetworkNode :=
  ns.foldl (fun acc n => if acc.any (fun m => m.id = n.id) then acc else acc ++ [n]) sl

/-- One peer's reply in the modelled network: the envelope's error field
plus the typed payload it returns for a lookup query. -/
structure NetReply where
  error : Option (List Nat)
  data : MsgData
deriving DecidableEq, Repr

/-- From source dht.go (listen): every response envelope a peer builds has
Sender := the peer itself and Receiver := the original query's sender,
i.e. the local node. -/
def mkResponse (self n : NetworkNode) (rep : NetReply) : message :=
  { id := 0, sender := n, receiver := self, isResponse := true,
    error := rep.error, data := rep.data }

/-- The evolving state of one iterate call: shortlist, contacted ids, the
current closestNode, the routing table and the ping-oracle cursor. -/
structure IterState where
  sl : List NetworkNode
  contacted : List (List Nat)
  closestNode : NetworkNode
  ht : hashTable
  pingCtr : Nat
deriving DecidableEq, Repr

/-- Accumulator for processing one round's responses in order. -/
inductive MergeOut where
  | cont (sl : List NetworkNode) (ht : hashTable) (ctr : Nat)
  | value (v : List Nat)
  | bad
deriving DecidableEq, Repr

/-- The `dht.addNode(newNode(n))` loop run over a response's closest list;
each call consumes the next ping outcome from the oracle. -/
def addNodes (pings : Nat → PingOutcome) (ht : hashTable) (ctr : Nat)
    (ns : List NetworkNode) : hashTable × Nat :=
  ns.foldl (fun acc n => (DHT.addNode acc.1 n (pings acc.2), acc.2 + 1)) (ht, ctr)

/-- From source dht.go (iterate, the results loop): a response with a
non-null error field has `result.Receiver` removed from the shortlist and
nothing else happens; otherwise FindNode and Store responses (and FindValue
responses without a value) feed their closest list through addNode and
append-unique it into the shortlist; a FindValue response carrying a value
returns it at once, skipping the remaining results.  A payload of the wrong
variant would make the Go type assertion panic (`bad`). -/
def processResult (t : IterType) (pings : Nat → PingOutcome) (acc : MergeOut)
    (result : message) : MergeOut :=
  match acc with
  | .value v => .value v
  | .bad => .bad
  | .cont sl ht ctr =>
    if result.error.isSome then .cont (removeNodeById sl result.receiver.id) ht ctr
    else
      match t, result.data with
      | .findNode, .responseFindNode closest =>
        let p := addNodes pings ht ctr closest
        .cont (appendUnique sl closest) p.1 p.2
      | .store, .responseFindNode closest =>
        let p := addNodes pings ht ctr closest
        .cont (appendUnique sl closest) p.1 p.2
      | .findValue, .responseFindValue v closest =>
        match v with
        | some value => .value value
        | none =>
          let p := addNodes pings ht ctr closest
          .cont (appendUnique sl closest) p.1 p.2
      | _, _ => .bad

/-- From source dht.go (iterate, selection loop): among the first alpha
shortlist entries, the ones not yet contacted. -/
def selectQueries (sl : List NetworkNode) (contacted : List (List Nat)) : List NetworkNode :=
  (sl.take alpha).filter (fun n => ! decide (n.id ∈ contacted))

/-- One fire-and-forget QueryStore send of the Store termination action:
receiver, queryDataStore payload (key, data), and the expect_response flag
passed to sendMessage. -/
structure StoreMsg where
  receiver : NetworkNode
  key : List Nat
  dat : List Nat
  expectResponse : Bool
deriving DecidableEq, Repr

/-- From source dht.go (iterate, case iterateStore at termination): one
QueryStore with (key = target, data) and expect_response = false per
shortlist entry, stopping at index k. -/
def storeFanout (sl : List NetworkNode) (target dat : List Nat) : List StoreMsg :=
  (sl.take k).map (fun n => ⟨n, target, dat, false⟩)

/-- Terminal value of an iterate call (for Store, the emitted fan-out is
the observable trace). -/
inductive IterResult where
  | empty
  | nodes (ns : List NetworkNode)
  | foundValue (v : List Nat)
  | storeSent (msgs : List StoreMsg)
deriving DecidableEq, Repr

/-- Outcome of one round: continue, return, or panic (a Go index or type
assertion failure). -/
inductive RoundOut where
  | next (s : IterState)
  | done (r : IterResult)
  | crash
deriving DecidableEq, Repr

/-- The tail of one round after merging and sorting (source dht.go,
iterate): if the sorted head is unchanged terminate — for Store emit the
QueryStore fan-out to the first k entries, for FindNode/FindValue return
the shortlist — else update closestNode and continue. -/
def iterRoundSorted (t : IterType) (target dat : List Nat) (closestId : List Nat)
    (contacted' : List (List Nat)) (ht' : hashTable) (ctr' : Nat)
    (sorted : List NetworkNode) : RoundOut :=
  match sorted with
  | [] => .crash
  | c :: rest =>
    if c.id = closestId then
      match t with
      | .findNode => .done (.nodes (c :: rest))
      | .findValue => .done (.nodes (c :: rest))
      | .store => .done (.storeSent (storeFanout (c :: rest) target dat))
    else
      .next { sl := c :: rest, contacted := contacted',
              closestNode := c, ht := ht', pingCtr := ctr' }

/-- One round after merging the responses: a found value or a failed type
assertion return at once; otherwise sort the shortlist and decide. -/
def iterRoundMerged (t : IterType) (target dat : List Nat) (closestId : List Nat)
    (contacted' : List (List Nat)) (m : MergeOut) : RoundOut :=
  match m with
  | .value v => .done (.foundValue v)
  | .bad => .crash
  | .cont sl' ht' ctr' =>
    iterRoundSorted t target dat closestId contacted' ht' ctr' (sortByDist target sl')

/-- From source dht.go (iterate, one pass of the for loop): select up to
alpha uncontacted nodes and mark them contacted; collect their responses;
process them in order; then sort and apply the convergence test. -/
def iterRound (net : List Nat → NetReply) (pings : Nat → PingOutcome) (t : IterType)
    (target dat : List Nat) (s : IterState) : RoundOut :=
  let queried := selectQueries s.sl s.contacted
  let contacted' := s.contacted ++ queried.map (fun n => n.id)
  let results := queried.map (fun n => mkResponse s.ht.Self n (net n.id))
  iterRoundMerged t target dat s.closestNode.id contacted'
    (results.foldl (processResult t pings) (.cont s.sl s.ht s.pingCtr))

/-- The iterate loop, fuel-bounded; `none` means the fuel ran out or the
round crashed. -/
def iterLoop (net : List Nat → NetReply) (pings : Nat → PingOutcome) (t : IterType)
    (target dat : List Nat) : Nat → IterState → Option IterResult
  | 0, _ => none
  | fuel + 1, s =>
    match iterRound net pings t target dat s with
    | .done r => some r
    | .crash => none
    | .next s' => iterLoop net pings t target dat fuel s'

/-- From source dht.go (`DHT.iterate`): with an empty seed shortlist return
immediately; else set closestNode to the head and run the loop.  The seed
is the result of `getClosestContacts(alpha, target, ∅)` and is passed in
explicitly. -/
def iterate (net : List Nat → NetReply) (pings : Nat → PingOutcome) (t : IterType)
    (target dat : List Nat) (sl₀ : List NetworkNode) (ht₀ : hashTable)
    (fuel : Nat) : Option IterResult :=
  match sl₀ with
  | [] => some .empty
  | c :: rest =>
    iterLoop net pings t target dat fuel
      { sl := c :: rest, contacted := [], closestNode := c, ht := ht₀, pingCtr := 0 }

theorem iterRoundMerged_value (t : IterType) (target dat cid : List Nat)
    (c' : List (List Nat)) (v : List Nat) :
    iterRoundMerged t target dat cid c' (.value v) = .done (.foundValue v) := rfl

theorem iterRoundMerged_cont (t : IterType) (target dat cid : List Nat)
    (c' : List (List Nat)) (sl' : List NetworkNode) (ht' : hashTable) (ctr' : Nat) :
    iterRoundMerged t target dat cid c' (.cont sl' ht' ctr') =
      iterRoundSorted t target dat cid c' ht' ctr' (sortByDist target sl') := rfl

theorem iterRoundSorted_cons (t : IterType) (target dat cid : List Nat)
    (c' : List (List Nat)) (ht' : hashTable) (ctr' : Nat) (c : NetworkNode)
    (rest : List NetworkNode) :
    iterRoundSorted t target dat cid c' ht' ctr' (c :: rest) =
      (if c.id = cid then
        match t with
        | .findNode => .done (.nodes (c :: rest))
        | .findValue => .done (.nodes (c :: rest))
        | .store => .done (.storeSent (storeFanout (c :: rest) target dat))
      else
        .next { sl := c :: rest, contacted := c', closestNode := c,
                ht := ht', pingCtr := ctr' }) := rfl

/-- The reply payload variant each query type expects (the Go type
assertions in the results loop). -/
def wellTypedReply (t : IterType) (d : MsgData) : Bool :=
  match t, d with
  | .findNode, .responseFindNode _ => true
  | .store, .responseFindNode _ => true
  | .findValue, .responseFindValue _ _ => true
  | _, _ => false

/-- The closest list carried by a reply payload. -/
def replyClosest : MsgData → List NetworkNode
  | .responseFindNode cl => cl
  | .responseFindValue _ cl => cl
  | _ => []

/-- A finite network of responding peers over the universe `U`: every peer
of `U` replies without error, with the payload variant the query type
expects, and every address in its reply is again in `U`. -/
def respondingNet (net : List Nat → NetReply) (t : IterType) (U : List NetworkNode) : Prop :=
  ∀ u ∈ U, (net u.id).error = none ∧ wellTypedReply t (net u.id).data = true ∧
    ∀ m ∈ replyClosest (net u.id).data, m ∈ U

instance : Inhabited NetworkNode := ⟨⟨[], 0, 0⟩⟩

theorem mem_appendUnique_left (ns : List NetworkNode) :
    ∀ (sl : List NetworkNode) (x : NetworkNode), x ∈ sl → x ∈ appendUnique sl ns := by
  induction ns with
  | nil => intro sl x h; exact h
  | cons n rest ih =>
    intro sl x h
    simp only [appendUnique, List.foldl_cons]
    by_cases hany : sl.any (fun m => m.id = n.id) = true
    · rw [if_pos hany]; exact ih sl x h
    · rw [if_neg hany]
      exact ih (sl ++ [n]) x (List.mem_append_left _ h)

theorem mem_appendUnique (ns : List NetworkNode) :
    ∀ (sl : List NetworkNode) (x : NetworkNode), x ∈ appendUnique sl ns →
      x ∈ sl ∨ x ∈ ns := by
  induction ns with
  | nil => intro sl x h; exact Or.inl h
  | cons n rest ih =>
    intro sl x h
    simp only [appendUnique, List.foldl_cons] at h
    by_cases hany : sl.any (fun m => m.id = n.id) = true
    · rw [if_pos hany] at h
      rcases ih sl x h with h1 | h1
      · exact Or.inl h1
      · exact Or.inr (List.mem_cons_of_mem _ h1)
    · rw [if_neg hany] at h
      rcases ih (sl ++ [n]) x h with h1 | h1
      · rcases List.mem_append.mp h1 with h2 | h2
        · exact Or.inl h2
        · right
          rw [List.mem_singleton.mp h2]
          exact List.mem_cons_self _ _
      · exact Or.inr (List.mem_cons_of_mem _ h1)

theorem appendUnique_nodup (ns : List NetworkNode) :
    ∀ (sl : List NetworkNode), (sl.map NetworkNode.id).Nodup →
      ((appendUnique sl ns).map NetworkNode.id).Nodup := by
  induction ns with
  | nil => intro sl h; exact h
  | cons n rest ih =>
    intro sl h
    simp only [appendUnique, List.foldl_cons]
    by_cases hany : sl.any (fun m => m.id = n.id) = true
    · rw [if_pos hany]; exact ih sl h
    · rw [if_neg hany]
      apply ih
      rw [List.map_append, List.nodup_append]
      refine ⟨h, by simp, ?_⟩
      intro a ha hb
      simp only [List.map_cons, List.map_nil, List.mem_singleton] at hb
      simp only [List.any_eq_true, decide_eq_true_eq] at hany
      simp only [List.mem_map] at ha
      rcases ha with ⟨m, hm, hmid⟩
      exact hany ⟨m, hm, by rw [hmid, hb]⟩

theorem appendUnique_ne_nil (sl ns : List NetworkNode) (h : sl ≠ []) :
    appendUnique sl ns ≠ [] := by
  rcases List.exists_mem_of_ne_nil sl h with ⟨x, hx⟩
  intro hc
  have := mem_appendUnique_left ns sl x hx
  rw [hc] at this
  exact List.not_mem_nil x this

theorem sortByDist_perm (target : List Nat) (sl : List NetworkNode) :
    List.Perm (sortByDist target sl) sl :=
  List.perm_insertionSort _ _

theorem mem_sortByDist (target : List Nat) (sl : List NetworkNode) (x : NetworkNode) :
    x ∈ sortByDist target sl ↔ x ∈ sl :=
  List.mem_insertionSort _

theorem sortByDist_sorted (target : List Nat) (sl : List NetworkNode) :
    List.Sorted (nearer target) (sortByDist target sl) :=
  List.sorted_insertionSort _ _

theorem sortByDist_of_sorted (target : List Nat) (sl : List NetworkNode)
    (h : List.Sorted (nearer target) sl) : sortByDist target sl = sl :=
  h.insertionSort_eq

theorem sortByDist_ne_nil (target : List Nat) (sl : List NetworkNode) (h : sl ≠ []) :
    sortByDist target sl ≠ [] := by
  intro hc
  apply h
  have hlen := (sortByDist_perm target sl).length_eq
  rw [hc] at hlen
  exact List.eq_nil_of_length_eq_zero hlen.symm

theorem sortByDist_nodup (target : List Nat) (sl : List NetworkNode)
    (h : (sl.map NetworkNode.id).Nodup) :
    ((sortByDist target sl).map NetworkNode.id).Nodup :=
  (((sortByDist_perm target sl).map NetworkNode.id).nodup_iff).mpr h

/-- The loop invariant of one iterate call over universe `U`: the shortlist
is nonempty, duplicate-free by id, inside `U`; the contacted ids are
duplicate-free and ids of `U`; and except before the first round the
shortlist is sorted with closestNode at its head. -/
def iterInv (U : List NetworkNode) (target : List Nat) (s : IterState) : Prop :=
  s.sl ≠ [] ∧
  (s.sl.map NetworkNode.id).Nodup ∧
  (∀ n ∈ s.sl, n ∈ U) ∧
  s.contacted.Nodup ∧
  (∀ cid ∈ s.contacted, cid ∈ U.map NetworkNode.id) ∧
  (s.contacted = [] ∨
    (List.Sorted (nearer target) s.sl ∧ s.closestNode.id = s.sl.headI.id))

theorem foldl_processResult_value (t : IterType) (pings : Nat → PingOutcome)
    (results : List message) (v : List Nat) :
    results.foldl (processResult t pings) (.value v) = .value v := by
  induction results with
  | nil => rfl
  | cons r rest ih =>
    simp only [List.foldl_cons]
    exact ih

theorem wellTyped_findNode (d : MsgData) (h : wellTypedReply .findNode d = true) :
    ∃ cl, d = .responseFindNode cl := by
  cases d <;> simp [wellTypedReply] at h <;> exact ⟨_, rfl⟩

theorem wellTyped_store (d : MsgData) (h : wellTypedReply .store d = true) :
    ∃ cl, d = .responseFindNode cl := by
  cases d <;> simp [wellTypedReply] at h <;> exact ⟨_, rfl⟩

theorem wellTyped_findValue (d : MsgData) (h : wellTypedReply .findValue d = true) :
    ∃ v cl, d = .responseFindValue v cl := by
  cases d <;> simp [wellTypedReply] at h <;> exact ⟨_, _, rfl⟩

theorem processResult_store_ne_value (pings : Nat → PingOutcome) (results : List message) :
    ∀ (acc : MergeOut), (∀ v, acc ≠ .value v) →
      ∀ v, results.foldl (processResult .store pings) acc ≠ .value v := by
  induction results with
  | nil => intro acc hacc v; exact hacc v
  | cons r rest ih =>
    intro acc hacc v
    simp only [List.foldl_cons]
    apply ih
    intro v'
    cases acc with
    | value w => exact absurd rfl (hacc w)
    | bad => simp [processResult]
    | cont sl ht ctr =>
      unfold processResult
      cases herr : r.error.isSome
      · simp only [Bool.false_eq_true, if_false]
        cases hd : r.data <;> simp
      · simp

theorem foldl_processResult_responding
    (t : IterType) (pings : Nat → PingOutcome) (net : List Nat → NetReply)
    (U : List NetworkNode) (self : NetworkNode) (hnet : respondingNet net t U) :
    ∀ (queried : List NetworkNode), (∀ n ∈ queried, n ∈ U) →
      ∀ (sl : List NetworkNode) (ht : hashTable) (ctr : Nat),
        (∃ v, (queried.map (fun n => mkResponse self n (net n.id))).foldl
            (processResult t pings) (.cont sl ht ctr) = .value v) ∨
        (∃ sl' ht' ctr',
          (queried.map (fun n => mkResponse self n (net n.id))).foldl
            (processResult t pings) (.cont sl ht ctr) = .cont sl' ht' ctr' ∧
          (∀ x ∈ sl, x ∈ sl') ∧
          (∀ x ∈ sl', x ∈ sl ∨ x ∈ U) ∧
          ((sl.map NetworkNode.id).Nodup → (sl'.map NetworkNode.id).Nodup)) := by
  intro queried
  induction queried with
  | nil =>
    intro hq sl ht ctr
    right
    exact ⟨sl, ht, ctr, rfl, fun x h => h, fun x h => Or.inl h, id⟩
  | cons n rest ih =>
    intro hq sl ht ctr
    have hn : n ∈ U := hq n (List.mem_cons_self _ _)
    have hrest : ∀ m ∈ rest, m ∈ U := fun m hm => hq m (List.mem_cons_of_mem _ hm)
    obtain ⟨herr, hwt, hcl⟩ := hnet n hn
    simp only [List.map_cons, List.foldl_cons]
    cases t with
    | findNode =>
      obtain ⟨cl, hd⟩ := wellTyped_findNode _ hwt
      have hclU : ∀ m ∈ cl, m ∈ U := by
        rw [hd] at hcl
        simpa [replyClosest] using hcl
      have hstep : processResult .findNode pings (.cont sl ht ctr)
          (mkResponse self n (net n.id)) =
          .cont (appendUnique sl cl) (addNodes pings ht ctr cl).1
            (addNodes pings ht ctr cl).2 := by
        unfold processResult mkResponse
        simp [herr, hd]
      rw [hstep]
      rcases ih hrest (appendUnique sl cl) (addNodes pings ht ctr cl).1
          (addNodes pings ht ctr cl).2 with ⟨v, hv⟩ | ⟨sl', ht', ctr', heq, hs1, hs2, hnd⟩
      · exact Or.inl ⟨v, hv⟩
      · right
        refine ⟨sl', ht', ctr', heq, ?_, ?_, ?_⟩
        · exact fun x hx => hs1 x (mem_appendUnique_left cl sl x hx)
        · intro x hx
          rcases hs2 x hx with h1 | h1
          · rcases mem_appendUnique cl sl x h1 with h2 | h2
            · exact Or.inl h2
            · exact Or.inr (hclU x h2)
          · exact Or.inr h1
        · exact fun hnodup => hnd (appendUnique_nodup cl sl hnodup)
    | store =>
      obtain ⟨cl, hd⟩ := wellTyped_store _ hwt
      have hclU : ∀ m ∈ cl, m ∈ U := by
        rw [hd] at hcl
        simpa [replyClosest] using hcl
      have hstep : processResult .store pings (.cont sl ht ctr)
          (mkResponse self n (net n.id)) =
          .cont (appendUnique sl cl) (addNodes pings ht ctr cl).1
            (addNodes pings ht ctr cl).2 := by
        unfold processResult mkResponse
        simp [herr, hd]
      rw [hstep]
      rcases ih hrest (appendUnique sl cl) (addNodes pings ht ctr cl).1
          (addNodes pings ht ctr cl).2 with ⟨v, hv⟩ | ⟨sl', ht', ctr', heq, hs1, hs2, hnd⟩
      · exact Or.inl ⟨v, hv⟩
      · right
        refine ⟨sl', ht', ctr', heq, ?_, ?_, ?_⟩
        · exact fun x hx => hs1 x (mem_appendUnique_left cl sl x hx)
        · intro x hx
          rcases hs2 x hx with h1 | h1
          · rcases mem_appendUnique cl sl x h1 with h2 | h2
            · exact Or.inl h2
            · exact Or.inr (hclU x h2)
          · exact Or.inr h1
        · exact fun hnodup => hnd (appendUnique_nodup cl sl hnodup)
    | findValue =>
      obtain ⟨v, cl, hd⟩ := wellTyped_findValue _ hwt
      have hclU : ∀ m ∈ cl, m ∈ U := by
        rw [hd] at hcl
        simpa [replyClosest] using hcl
      cases v with
      | some value =>
        have hstep : processResult .findValue pings (.cont sl ht ctr)
            (mkResponse self n (net n.id)) = .value value := by
          unfold processResult mkResponse
          simp [herr, hd]
        rw [hstep, foldl_processResult_value]
        exact Or.inl ⟨value, rfl⟩
      | none =>
        have hstep : processResult .findValue pings (.cont sl ht ctr)
            (mkResponse self n (net n.id)) =
            .cont (appendUnique sl cl) (addNodes pings ht ctr cl).1
              (addNodes pings ht ctr cl).2 := by
          unfold processResult mkResponse
          simp [herr, hd]
        rw [hstep]
        rcases ih hrest (appendUnique sl cl) (addNodes pings ht ctr cl).1
            (addNodes pings ht ctr cl).2 with ⟨v', hv⟩ | ⟨sl', ht', ctr', heq, hs1, hs2, hnd⟩
        · exact Or.inl ⟨v', hv⟩
        · right
          refine ⟨sl', ht', ctr', heq, ?_, ?_, ?_⟩
          · exact fun x hx => hs1 x (mem_appendUnique_left cl sl x hx)
          · intro x hx
            rcases hs2 x hx with h1 | h1
            · rcases mem_appendUnique cl sl x h1 with h2 | h2
              · exact Or.inl h2
              · exact Or.inr (hclU x h2)
            · exact Or.inr h1
          · exact fun hnodup => hnd (appendUnique_nodup cl sl hnodup)

theorem selectQueries_sublist (sl : List NetworkNode) (contacted : List (List Nat)) :
    List.Sublist (selectQueries sl contacted) sl :=
  (List.filter_sublist _).trans (List.take_sublist _ _)

theorem selectQueries_subset (sl : List NetworkNode) (contacted : List (List Nat)) :
    ∀ n ∈ selectQueries sl contacted, n ∈ sl :=
  fun _ hn => (selectQueries_sublist sl contacted).subset hn

theorem selectQueries_fresh (sl : List NetworkNode) (contacted : List (List Nat)) :
    ∀ n ∈ selectQueries sl contacted, n.id ∉ contacted := by
  intro n hn
  have h := List.of_mem_filter hn
  simpa using h

theorem selectQueries_nodup_ids (sl : List NetworkNode) (contacted : List (List Nat))
    (h : (sl.map NetworkNode.id).Nodup) :
    ((selectQueries sl contacted).map NetworkNode.id).Nodup :=
  h.sublist ((selectQueries_sublist sl contacted).map NetworkNode.id)

theorem selectQueries_nil_contacted (sl : List NetworkNode) :
    selectQueries sl [] = sl.take alpha := by
  unfold selectQueries
  rw [List.filter_eq_self]
  intro a _
  simp

theorem take_alpha_ne_nil (sl : List NetworkNode) (h : sl ≠ []) : sl.take alpha ≠ [] := by
  cases sl with
  | nil => exact absurd rfl h
  | cons c rest => simp [alpha]

theorem iterRound_progress
    (net : List Nat → NetReply) (pings : Nat → PingOutcome) (t : IterType)
    (target dat : List Nat) (U : List NetworkNode)
    (hnet : respondingNet net t U) (s : IterState) (hinv : iterInv U target s) :
    (∃ r, iterRound net pings t target dat s = .done r ∧
      (t = .store → ∃ sl', r = .storeSent (storeFanout sl' target dat) ∧
        List.Sorted (nearer target) sl' ∧ (sl'.map NetworkNode.id).Nodup ∧
        (∀ n ∈ sl', n ∈ U))) ∨
    (∃ s', iterRound net pings t target dat s = .next s' ∧ iterInv U target s' ∧
      s.contacted.length + 1 ≤ s'.contacted.length) := by
  obtain ⟨hne, hnodup, hsub, hcnodup, hcsub, hsl_sorted⟩ := hinv
  have hQsub : ∀ n ∈ selectQueries s.sl s.contacted, n ∈ U :=
    fun n hn => hsub n (selectQueries_subset _ _ n hn)
  have hiter : iterRound net pings t target dat s =
      iterRoundMerged t target dat s.closestNode.id
        (s.contacted ++ (selectQueries s.sl s.contacted).map (fun n => n.id))
        (((selectQueries s.sl s.contacted).map
            (fun n => mkResponse s.ht.Self n (net n.id))).foldl
          (processResult t pings) (.cont s.sl s.ht s.pingCtr)) := rfl
  rcases foldl_processResult_responding t pings net U s.ht.Self hnet
      (selectQueries s.sl s.contacted) hQsub s.sl s.ht s.pingCtr with
    ⟨v, hv⟩ | ⟨sl', ht', ctr', heq, hs1, hs2, hnd⟩
  · left
    refine ⟨.foundValue v, ?_, ?_⟩
    · rw [hiter, hv, iterRoundMerged_value]
    · intro hts
      subst hts
      exact absurd hv (processResult_store_ne_value pings _ _ (fun v' => by simp) v)
  · have hslne' : sl' ≠ [] := by
      rcases List.exists_mem_of_ne_nil s.sl hne with ⟨x, hx⟩
      intro hc
      have hmem := hs1 x hx
      rw [hc] at hmem
      exact List.not_mem_nil x hmem
    have hsl'U : ∀ x ∈ sl', x ∈ U := fun x hx => (hs2 x hx).elim (fun h => hsub x h) id
    have hsl'nodup : (sl'.map NetworkNode.id).Nodup := hnd hnodup
    cases hsort : sortByDist target sl' with
    | nil => exact absurd hsort (sortByDist_ne_nil target sl' hslne')
    | cons c rest =>
      have hsorted2 : List.Sorted (nearer target) (c :: rest) := by
        rw [← hsort]
        exact sortByDist_sorted target sl'
      have hnodup2 : ((c :: rest).map NetworkNode.id).Nodup := by
        rw [← hsort]
        exact sortByDist_nodup target sl' hsl'nodup
      have hmemU2 : ∀ n ∈ c :: rest, n ∈ U := by
        intro n hn
        rw [← hsort] at hn
        exact hsl'U n ((mem_sortByDist target sl' n).mp hn)
      have heqr : iterRound net pings t target dat s =
          iterRoundSorted t target dat s.closestNode.id
            (s.contacted ++ (selectQueries s.sl s.contacted).map (fun n => n.id))
            ht' ctr' (c :: rest) := by
        rw [hiter, heq, iterRoundMerged_cont, hsort]
      by_cases hhead : c.id = s.closestNode.id
      · left
        cases t with
        | findNode =>
          refine ⟨.nodes (c :: rest), ?_, ?_⟩
          · rw [heqr, iterRoundSorted_cons, if_pos hhead]
          · intro hts
            exact absurd hts (by decide)
        | findValue =>
          refine ⟨.nodes (c :: rest), ?_, ?_⟩
          · rw [heqr, iterRoundSorted_cons, if_pos hhead]
          · intro hts
            exact absurd hts (by decide)
        | store =>
          refine ⟨.storeSent (storeFanout (c :: rest) target dat), ?_, ?_⟩
          · rw [heqr, iterRoundSorted_cons, if_pos hhead]
          · intro hts
            exact ⟨c :: rest, rfl, hsorted2, hnodup2, hmemU2⟩
      · right
        have hQne : selectQueries s.sl s.contacted ≠ [] := by
          intro hq0
          rw [hq0] at heq
          simp only [List.map_nil, List.foldl_nil] at heq
          have hsl'eq : sl' = s.sl := by
            injection heq with h1 h2 h3
            exact h1.symm
          rcases hsl_sorted with hc0 | ⟨hsrt, hcid⟩
          · rw [hc0, selectQueries_nil_contacted] at hq0
            exact take_alpha_ne_nil s.sl hne hq0
          · rw [hsl'eq, sortByDist_of_sorted target s.sl hsrt] at hsort
            apply hhead
            rw [hcid, hsort]
            rfl
        refine
          ⟨{ sl := c :: rest,
             contacted := s.contacted ++ (selectQueries s.sl s.contacted).map (fun n => n.id),
             closestNode := c, ht := ht', pingCtr := ctr' }, ?_, ?_, ?_⟩
        · rw [heqr, iterRoundSorted_cons, if_neg hhead]
        · unfold iterInv
          refine ⟨List.cons_ne_nil c rest, hnodup2, hmemU2, ?_, ?_, Or.inr ⟨hsorted2, rfl⟩⟩
          · rw [List.nodup_append]
            refine ⟨hcnodup, selectQueries_nodup_ids s.sl s.contacted hnodup, ?_⟩
            intro a ha hb
            simp only [List.mem_map] at hb
            rcases hb with ⟨n, hn, hnid⟩
            exact selectQueries_fresh s.sl s.contacted n hn (hnid ▸ ha)
          · intro cid hcid2
            rcases List.mem_append.mp hcid2 with h1 | h1
            · exact hcsub cid h1
            · simp only [List.mem_map] at h1
              rcases h1 with ⟨n, hn, hnid⟩
              rw [← hnid]
              exact List.mem_map_of_mem NetworkNode.id (hQsub n hn)
        · simp only [List.length_append, List.length_map]
          have hQpos : 0 < (selectQueries s.sl s.contacted).length :=
            List.length_pos.mpr hQne
          omega

theorem contacted_le_U (U : List NetworkNode) (contacted : List (List Nat))
    (hnodup : contacted.Nodup)
    (hsub : ∀ cid ∈ contacted, cid ∈ U.map NetworkNode.id) :
    contacted.length ≤ U.length := by
  have h1 : List.Subperm contacted (U.map NetworkNode.id) :=
    List.subperm_of_subset hnodup (fun a ha => hsub a ha)
  have h2 := h1.length_le
  simpa using h2

theorem iterLoop_succ_done (net : List Nat → NetReply) (pings : Nat → PingOutcome)
    (t : IterType) (target dat : List Nat) (fuel : Nat) (s : IterState) (r : IterResult)
    (h : iterRound net pings t target dat s = .done r) :
    iterLoop net pings t target dat (fuel + 1) s = some r := by
  unfold iterLoop
  rw [h]

theorem iterLoop_succ_next (net : List Nat → NetReply) (pings : Nat → PingOutcome)
    (t : IterType) (target dat : List Nat) (fuel : Nat) (s s' : IterState)
    (h : iterRound net pings t target dat s = .next s') :
    iterLoop net pings t target dat (fuel + 1) s =
      iterLoop net pings t target dat fuel s' := by
  show (match iterRound net pings t target dat s with
        | .done r => some r
        | .crash => none
        | .next s'' => iterLoop net pings t target dat fuel s'') =
      iterLoop net pings t target dat fuel s'
  rw [h]

theorem iterLoop_some (net : List Nat → NetReply) (pings : Nat → PingOutcome)
    (t : IterType) (target dat : List Nat) (U : List NetworkNode)
    (hnet : respondingNet net t U) :
    ∀ (fuel : Nat) (s : IterState), iterInv U target s →
      U.length + 1 ≤ fuel + s.contacted.length →
      (iterLoop net pings t target dat fuel s).isSome := by
  intro fuel
  induction fuel with
  | zero =>
    intro s hinv hle
    obtain ⟨_, _, _, hcnodup, hcsub, _⟩ := hinv
    have := contacted_le_U U s.contacted hcnodup hcsub
    omega
  | succ fuel ih =>
    intro s hinv hle
    rcases iterRound_progress net pings t target dat U hnet s hinv with
      ⟨r, hr, _⟩ | ⟨s', hs', hinv', hprog⟩
    · rw [iterLoop_succ_done net pings t target dat fuel s r hr]
      rfl
    · rw [iterLoop_succ_next net pings t target dat fuel s s' hs']
      exact ih s' hinv' (by omega)

/-- C1: for every lookup kind (FindNode, FindValue, Store) and every finite
network of responding peers — a universe U, a duplicate-free seed shortlist
drawn from U, every reply error-free, of the expected payload variant, and
pointing back into U — iterate returns within |U| + 1 rounds; in
particular iterate(Store, target, data) with a non-empty initial shortlist
returns even when the shortlist holds fewer than k nodes when the
convergence condition (shortlist head unchanged) is first met. -/
theorem iterate_terminates (net : List Nat → NetReply) (pings : Nat → PingOutcome)
    (t : IterType) (target dat : List Nat) (U sl₀ : List NetworkNode) (ht₀ : hashTable)
    (hnodup : (sl₀.map NetworkNode.id).Nodup)
    (hsub : ∀ n ∈ sl₀, n ∈ U)
    (hnet : respondingNet net t U) :
    (iterate net pings t target dat sl₀ ht₀ (U.length + 1)).isSome := by
  cases sl₀ with
  | nil => rfl
  | cons c rest =>
    unfold iterate
    apply iterLoop_some net pings t target dat U hnet
    · unfold iterInv
      exact ⟨List.cons_ne_nil c rest, hnodup, hsub, List.nodup_nil,
        fun cid h => absurd h (List.not_mem_nil cid), Or.inl rfl⟩
    · simp

/-- A concrete peer for the witnesses. -/
def nodeEx : NetworkNode := ⟨[9], 0, 0⟩

/-- A concrete routing table (self id [0], eight empty buckets). -/
def htEx : hashTable := ⟨⟨[0], 0, 0⟩, List.replicate 8 []⟩

/-- A concrete network: every peer replies with an empty closest list. -/
def netEx : List Nat → NetReply := fun _ => ⟨none, .responseFindNode []⟩

/-- A concrete ping oracle. -/
def pingsEx : Nat → PingOutcome := fun _ => .pong

/-- C1 witness: a concrete one-peer Store lookup (shortlist of 1 < k)
returns within 2 rounds. -/
theorem iterate_terminates_witness :
    (iterate netEx pingsEx .store [3] [1, 2] [nodeEx] htEx 2).isSome :=
  iterate_terminates netEx pingsEx .store [3] [1, 2] [nodeEx] [nodeEx] htEx
    (by decide) (by decide) (by unfold respondingNet; decide)

theorem iterLoop_store_result (net : List Nat → NetReply) (pings : Nat → PingOutcome)
    (target dat : List Nat) (U : List NetworkNode)
    (hnet : respondingNet net .store U) :
    ∀ (fuel : Nat) (s : IterState) (r : IterResult), iterInv U target s →
      iterLoop net pings .store target dat fuel s = some r →
      ∃ sl', r = .storeSent (storeFanout sl' target dat) ∧
        List.Sorted (nearer target) sl' ∧ (sl'.map NetworkNode.id).Nodup ∧
        (∀ n ∈ sl', n ∈ U) := by
  intro fuel
  induction fuel with
  | zero =>
    intro s r hinv hrun
    simp [iterLoop] at hrun
  | succ fuel ih =>
    intro s r hinv hrun
    rcases iterRound_progress net pings .store target dat U hnet s hinv with
      ⟨r', hr', hinfo⟩ | ⟨s', hs', hinv', hprog⟩
    · rw [iterLoop_succ_done net pings .store target dat fuel s r' hr'] at hrun
      obtain ⟨sl', heq, hsorted, hnodup', hU⟩ := hinfo rfl
      injection hrun with h
      exact ⟨sl', by rw [← h]; exact heq, hsorted, hnodup', hU⟩
    · rw [iterLoop_succ_next net pings .store target dat fuel s s' hs'] at hrun
      exact ih s' r hinv' hrun

/-- C3: when iterate(Store, target, data) reaches its termination condition
(shortlist head unchanged after a round) it emits exactly one fire-and-forget
QueryStore — key = target, the given data, expect_response = false — to each
of the first min(k, |shortlist|) addresses of the distance-sorted shortlist,
to no other address, and to no address more than once. -/
theorem store_fanout_exact (net : List Nat → NetReply) (pings : Nat → PingOutcome)
    (target dat : List Nat) (U sl₀ : List NetworkNode) (ht₀ : hashTable)
    (fuel : Nat) (r : IterResult)
    (hne : sl₀ ≠ [])
    (hnodup : (sl₀.map NetworkNode.id).Nodup)
    (hsub : ∀ n ∈ sl₀, n ∈ U)
    (hnet : respondingNet net .store U)
    (hrun : iterate net pings .store target dat sl₀ ht₀ fuel = some r) :
    ∃ sl' msgs, r = .storeSent msgs ∧ msgs = storeFanout sl' target dat ∧
      List.Sorted (nearer target) sl' ∧ (sl'.map NetworkNode.id).Nodup ∧
      msgs.length = min k sl'.length ∧
      msgs.map StoreMsg.receiver = sl'.take k ∧
      (∀ m ∈ msgs, m.key = target ∧ m.dat = dat ∧ m.expectResponse = false) ∧
      (msgs.map (fun m => m.receiver.id)).Nodup := by
  cases sl₀ with
  | nil => exact absurd rfl hne
  | cons c rest =>
    unfold iterate at hrun
    obtain ⟨sl', heq, hsorted, hnodup', hU⟩ :=
      iterLoop_store_result net pings target dat U hnet fuel _ r
        (by
          unfold iterInv
          exact ⟨List.cons_ne_nil c rest, hnodup, hsub, List.nodup_nil,
            fun cid h => absurd h (List.not_mem_nil cid), Or.inl rfl⟩)
        hrun
    refine ⟨sl', storeFanout sl' target dat, heq, rfl, hsorted, hnodup', ?_, ?_, ?_, ?_⟩
    · simp [storeFanout]
    · unfold storeFanout
      rw [List.map_map]
      have hcomp : (StoreMsg.receiver ∘ fun n =>
          ({ receiver := n, key := target, dat := dat, expectResponse := false } :
            StoreMsg)) = id := rfl
      rw [hcomp, List.map_id]
    · intro m hm
      simp only [storeFanout, List.mem_map] at hm
      obtain ⟨n, hn, hmn⟩ := hm
      rw [← hmn]
      exact ⟨rfl, rfl, rfl⟩
    · have hmaps : (storeFanout sl' target dat).map (fun m => m.receiver.id) =
          (sl'.take k).map NetworkNode.id := by
        unfold storeFanout
        rw [List.map_map]
        rfl
      rw [hmaps]
      exact hnodup'.sublist ((List.take_sublist k sl').map NetworkNode.id)

/-- C3 witness: the concrete one-peer Store lookup emits exactly one
QueryStore with the expected fields. -/
theorem store_fanout_exact_witness :
    ∃ sl' msgs,
      (IterResult.storeSent
          [({ receiver := nodeEx, key := [3], dat := [1, 2], expectResponse := false } :
              StoreMsg)]) = .storeSent msgs ∧
      msgs = storeFanout sl' [3] [1, 2] ∧
      List.Sorted (nearer [3]) sl' ∧ (sl'.map NetworkNode.id).Nodup ∧
      msgs.length = min k sl'.length ∧
      msgs.map StoreMsg.receiver = sl'.take k ∧
      (∀ m ∈ msgs, m.key = [3] ∧ m.dat = [1, 2] ∧ m.expectResponse = false) ∧
      (msgs.map (fun m => m.receiver.id)).Nodup :=
  store_fanout_exact netEx pingsEx [3] [1, 2] [nodeEx] [nodeEx] htEx 2
    (.storeSent [⟨nodeEx, [3], [1, 2], false⟩])
    (by decide) (by decide) (by decide) (by unfold respondingNet; decide) (by decide)

/-- The remote peer of the C6 failing input. -/
def remoteEx : NetworkNode := ⟨[5], 0, 0⟩

/-- A reply whose envelope carries a non-null error field. -/
def errReply : NetReply := ⟨some [1], .responseFindNode []⟩

/-- A network in which every peer answers with the error reply. -/
def netErr : List Nat → NetReply := fun _ => errReply

/-- C6 (code_bug): an awaited response with a non-null error field is built
by the remote listen loop with Sender = the remote peer and Receiver = the
local node; the source's error branch calls sl.RemoveNode(result.Receiver),
i.e. removes the LOCAL node's id — never in the shortlist — so the remote
peer that sent the error stays in the shortlist (the routing table is left
unchanged, as claimed).  Concretely: processing the error response from
remoteEx leaves the shortlist [remoteEx] and the table htEx intact, and a
full round returns with remoteEx still in the shortlist. -/
theorem error_response_keeps_sender :
    (mkResponse htEx.Self remoteEx errReply).sender = remoteEx ∧
    (mkResponse htEx.Self remoteEx errReply).error.isSome = true ∧
    processResult .findNode pingsEx (.cont [remoteEx] htEx 0)
        (mkResponse htEx.Self remoteEx errReply) = .cont [remoteEx] htEx 0 ∧
    remoteEx ∈ ([remoteEx] : List NetworkNode) ∧
    iterRound netErr pingsEx .findNode [3] []
        ⟨[remoteEx], [], remoteEx, htEx, 0⟩ = .done (.nodes [remoteEx]) := by
  decide
